import Mathlib

/-!
Shallow embedding of the forward-pass kernels of
`torch_底层算法实现/only_forward.py` together with theorems checking the
natural-language specification of the repository against the code.

Conventions of the embedding:
* dense arrays are total functions `ℕ → ℚ` (curried for higher ranks)
  together with explicit dimension arguments; entries outside the stated
  dimensions are irrelevant junk;
* machine floats are modelled by exact rationals (all inputs exercised by
  the claims keep every intermediate value exactly representable);
* code that raises (`assert`, `raise`, out-of-range indexing,
  reductions over an empty slice) is modelled with `Except String` or
  `WithBot`;
* `torch.sigmoid` / `torch.tanh` / `torch.rsqrt` are supplied by the array
  substrate, which the specification treats as an external collaborator;
  they enter the embedding as function parameters.
-/

/-- A rank-2 array (matrix); row index first. -/
abbrev Mat : Type := ℕ → ℕ → ℚ

/-- A rank-1 array (vector). -/
abbrev Vec : Type := ℕ → ℚ

/-- Sum `f 0 + ⋯ + f (k-1)`: the embedding of an axis reduction of length
`k` (`torch.sum` along one axis). -/
def sumN (k : ℕ) (f : ℕ → ℚ) : ℚ := ((List.range k).map f).sum

/-- Inner product of length `k`: one entry of `x @ w.t()`. -/
def dotN (k : ℕ) (f g : Vec) : ℚ := sumN k (fun i => f i * g i)

/-- Normalisation of one bound of a Python slice `x[a:b]` on an axis of
length `len`: a negative bound wraps by `len`, then everything is clamped
into `[0, len]`. -/
def sliceBound (i : ℤ) (len : ℕ) : ℕ :=
  if i < 0 then ((len : ℤ) + i).toNat else min i.toNat len

/-- Index list of the Python slice `x[a:b]` on an axis of length `len`. -/
def sliceIdx (a b : ℤ) (len : ℕ) : List ℕ :=
  List.range' (sliceBound a len) (sliceBound b len - sliceBound a len)

/-- Spatial output size of fixed-size pooling,
`(in + 2·padding − kernel) // stride + 1` with Python floor division. -/
def poolOutDim (inD k s p : ℕ) : ℤ :=
  ((inD : ℤ) + 2 * p - k) / s + 1

/- ------------------------------------------------------------------
`_linear` (only_forward.py:285-293).
------------------------------------------------------------------ -/

/-- Result of `_linear`: the Python function returns either a float scalar
or an array, so the embedding needs a sum of the two. -/
inductive LinOut where
  | scalar (c : ℚ)
  | arr (m : Mat)

/-- Embedding of `_linear`.  The Python body is
`return x @ weight.t() + bias if bias is not None else 0.`; the
conditional expression has lower precedence than `+`, so it parses as
`(x @ weight.t() + bias) if (bias is not None) else (0.)` and the function
returns the float `0.` whenever `bias` is `None`.  `inF` is the shared
inner dimension (`x: (N, In)`, `weight: (Out, In)`). -/
def _linear (inF : ℕ) (x weight : Mat) (bias : Option Vec) : LinOut :=
  match bias with
  | some b => .arr (fun i j => dotN inF (x i) (fun k => weight j k) + b j)
  | none => .scalar 0

/-- The matrix product `x @ weight.t()` by itself, which is what the
specification says `_linear` returns when `bias` is absent. -/
def linearNoBiasSpec (inF : ℕ) (x weight : Mat) : Mat :=
  fun i j => dotN inF (x i) (fun k => weight j k)

/- ------------------------------------------------------------------
`_max_pool2d` (only_forward.py:205-239) and
`_avg_pool2d` (only_forward.py:242-282).
Both kernels act cell-wise on the two trailing axes and leave every
leading (batch/channel) axis intact; the embedding therefore works on one
spatial slice `Mat` and carries the leading axes as an arbitrary index
type `α`.  Kernel size, stride and padding are the already-normalised
pairs (the Python code turns `int` arguments into pairs first).
------------------------------------------------------------------ -/

/-- Values in the window of `_max_pool2d` for output cell `(i, j)`:
the code takes `h_start = i*stride - padding`, clamps only a negative
start to `0`, and leaves the end `h_start + kernel` to Python slice
clamping. -/
def maxPoolWin (H W kh kw sh sw ph pw : ℕ) (x : Mat) (i j : ℕ) : List ℚ :=
  (sliceIdx (max ((i : ℤ) * sh - ph) 0) ((i : ℤ) * sh - ph + kh) H).flatMap
    (fun h => (sliceIdx (max ((j : ℤ) * sw - pw) 0) ((j : ℤ) * sw - pw + kw) W).map
      (fun w => x h w))

/-- Maximum of a list of values, `none` when the list is empty: the
embedding of `torch.max` over the (rectangular, here flattened) window
slice, which raises on an empty slice. -/
def listMaxQ : List ℚ → Option ℚ
  | [] => none
  | a :: t =>
    match listMaxQ t with
    | none => some a
    | some m => some (max a m)

/-- Embedding of `_max_pool2d`, one output cell.  Padded positions never
enter the window (the slice is over the raw input), so the maximum is over
valid input values only; `torch.max` of an empty slice raises, modelled as
`none`. -/
def _max_pool2d {α : Type} (H W kh kw sh sw ph pw : ℕ) (x : α → Mat)
    (a : α) (i j : ℕ) : Option ℚ :=
  listMaxQ (maxPoolWin H W kh kw sh sw ph pw (x a) i j)

/-- Zero padding of the two trailing axes by `p` (`F.pad` with a constant
`0.`, as called by `_avg_pool2d`; also the body of `_zero_padding2d`). -/
def padZero (H W p : ℕ) (x : Mat) : Mat := fun i j =>
  if p ≤ i ∧ i < H + p ∧ p ≤ j ∧ j < W + p then x (i - p) (j - p) else 0

/-- Values in the window of `_avg_pool2d` for output cell `(i, j)`: the
input is zero-padded first, then the window `[i*stride, i*stride+kernel)`
is cut from the padded array, so padded zeros do participate. -/
def avgPoolWin (H W kh kw sh sw p : ℕ) (x : Mat) (i j : ℕ) : List ℚ :=
  (sliceIdx ((i : ℤ) * sh) ((i : ℤ) * sh + kh) (H + 2 * p)).flatMap
    (fun h => (sliceIdx ((j : ℤ) * sw) ((j : ℤ) * sw + kw) (W + 2 * p)).map
      (fun w => padZero H W p x h w))

/-- Embedding of `_avg_pool2d`, one output cell: `torch.mean` over the
window cut from the zero-padded input (sum divided by the element count;
`ℚ` division by `0` yields `0` where torch would yield NaN, a case no
claim exercises). -/
def _avg_pool2d {α : Type} (H W kh kw sh sw p : ℕ) (x : α → Mat)
    (a : α) (i j : ℕ) : ℚ :=
  (avgPoolWin H W kh kw sh sw p (x a) i j).sum /
    ((avgPoolWin H W kh kw sh sw p (x a) i j).length : ℚ)

/- ------------------------------------------------------------------
`_batch_norm` (only_forward.py:124-160).

Two embeddings are used.  For claim C3 (the numerical content of the
training mode) the two admissible ranks are embedded separately with
typed arrays, mirroring the `x.dim() == 2` / `x.dim() == 4` branches.
For claim C4 (the rank check) the function is embedded once over a
rank-generic `NDArray`, reproducing the control flow exactly: the
`raise ValueError("x dim error")` sits inside the `if training:` branch
only, and the inference path applies the substrate's broadcasting
semantics whatever the rank.
------------------------------------------------------------------ -/

/-- A rank-3 array. -/
abbrev Mat3 : Type := ℕ → ℕ → ℕ → ℚ

/-- A rank-4 array. -/
abbrev Mat4 : Type := ℕ → ℕ → ℕ → ℕ → ℚ

/-- Triple sum, the reduction over axes `(0, 2, 3)` of a rank-4 array. -/
def sum3 (a b c : ℕ) (f : ℕ → ℕ → ℕ → ℚ) : ℚ :=
  sumN a (fun i => sumN b (fun p => sumN c (fun q => f i p q)))

/-- `torch.mean(x, (0,))` of a rank-2 `(N, C)` array, one channel. -/
def mean2d (n : ℕ) (x : Mat) (c : ℕ) : ℚ := sumN n (fun i => x i c) / (n : ℚ)

/-- `torch.var(x, (0,), unbiased)` of a rank-2 `(N, C)` array, one
channel: sum of squared deviations over the divisor `N - correction`,
correction `1` iff `unbiased`. -/
def var2d (n : ℕ) (unbiased : Bool) (x : Mat) (c : ℕ) : ℚ :=
  sumN n (fun i => (x i c - mean2d n x c) ^ 2) /
    ((n : ℚ) - if unbiased then 1 else 0)

/-- `torch.mean(x, (0, 2, 3))` of a rank-4 `(N, C, H, W)` array. -/
def mean4d (n h w : ℕ) (x : Mat4) (c : ℕ) : ℚ :=
  sum3 n h w (fun i p q => x i c p q) / ((n * h * w : ℕ) : ℚ)

/-- `torch.var(x, (0, 2, 3), unbiased)` of a rank-4 `(N, C, H, W)` array. -/
def var4d (n h w : ℕ) (unbiased : Bool) (x : Mat4) (c : ℕ) : ℚ :=
  sum3 n h w (fun i p q => (x i c p q - mean4d n h w x c) ^ 2) /
    (((n * h * w : ℕ) : ℚ) - if unbiased then 1 else 0)

/-- Training-mode, rank-2 branch of `_batch_norm`.  The in-place buffer
writes `running_mean[:] = ...` / `running_var[:] = ...` are modelled by
returning the new buffer contents alongside the output
(output, running_mean, running_var).  `rsqrt` is the substrate's
`torch.rsqrt`. -/
def batchNorm2dTrain (rsqrt : ℚ → ℚ) (n : ℕ) (x : Mat)
    (weight bias running_mean running_var : Vec) (momentum eps : ℚ) :
    Mat × Vec × Vec :=
  let mean := mean2d n x
  let eval_var := var2d n true x
  let var := var2d n false x
  ((fun i c => (x i c - mean c) * rsqrt (var c + eps) * weight c + bias c),
   (fun c => (1 - momentum) * running_mean c + momentum * mean c),
   (fun c => (1 - momentum) * running_var c + momentum * eval_var c))

/-- Training-mode, rank-4 branch of `_batch_norm`; `mean`, `var`,
`weight`, `bias` are broadcast (`[:, None, None]`) over the spatial
axes. -/
def batchNorm4dTrain (rsqrt : ℚ → ℚ) (n h w : ℕ) (x : Mat4)
    (weight bias running_mean running_var : Vec) (momentum eps : ℚ) :
    Mat4 × Vec × Vec :=
  let mean := mean4d n h w x
  let eval_var := var4d n h w true x
  let var := var4d n h w false x
  ((fun i c p q =>
      (x i c p q - mean c) * rsqrt (var c + eps) * weight c + bias c),
   (fun c => (1 - momentum) * running_mean c + momentum * mean c),
   (fun c => (1 - momentum) * running_var c + momentum * eval_var c))

/-- Dense N-dimensional array for the rank-generic embedding: a shape and
row-major data as a total function of the linear index (entries at and
beyond `shape.prod` are junk). -/
structure NDArray where
  shape : List ℕ
  data : ℕ → ℚ

/-- Row-major linear index of a multi-index. -/
def ravel : List ℕ → List ℕ → ℕ
  | _ :: ds, i :: is => i * ds.prod + ravel ds is
  | _, _ => 0

/-- Multi-index of a row-major linear index. -/
def unravel : List ℕ → ℕ → List ℕ
  | [], _ => []
  | _ :: ds, k => k / ds.prod :: unravel ds (k % ds.prod)

/-- Broadcast of two shapes, both given reversed (trailing axis first):
standard trailing-dimension alignment, size-1 axes expand. -/
def bcastRev : List ℕ → List ℕ → Option (List ℕ)
  | [], l => some l
  | l, [] => some l
  | a :: as, b :: bs =>
    match bcastRev as bs with
    | none => none
    | some r =>
      if a = b ∨ b = 1 then some (a :: r)
      else if a = 1 then some (b :: r)
      else none

/-- Broadcast shape of two shapes (`none` when incompatible). -/
def broadcastShape (s1 s2 : List ℕ) : Option (List ℕ) :=
  (bcastRev s1.reverse s2.reverse).map List.reverse

/-- Multi-index into an operand of a broadcast operation: the trailing
components of the output index, with size-1 axes pinned to `0`. -/
def opIndex (opShape outIdx : List ℕ) : List ℕ :=
  List.zipWith (fun d i => if d = 1 then 0 else i) opShape
    (outIdx.drop (outIdx.length - opShape.length))

/-- Broadcast-aware element read. -/
def bGet (a : NDArray) (outIdx : List ℕ) : ℚ :=
  a.data (ravel a.shape (opIndex a.shape outIdx))

/-- Broadcasting elementwise binary operation of the array substrate. -/
def bOp (f : ℚ → ℚ → ℚ) (a b : NDArray) : Except String NDArray :=
  match broadcastShape a.shape b.shape with
  | none => .error "broadcast shape mismatch"
  | some sh => .ok ⟨sh, fun k => f (bGet a (unravel sh k)) (bGet b (unravel sh k))⟩

/-- Elementwise unary map. -/
def eMap (f : ℚ → ℚ) (a : NDArray) : NDArray := ⟨a.shape, fun k => f (a.data k)⟩

/-- `torch.mean(x, (0,))` of an `NDArray` of shape `[n, c]`. -/
def ndMean2 (x : NDArray) (n c : ℕ) : NDArray :=
  ⟨[c], fun ch => sumN n (fun i => x.data (i * c + ch)) / (n : ℚ)⟩

/-- `torch.var(x, (0,), unbiased)` of an `NDArray` of shape `[n, c]`. -/
def ndVar2 (x : NDArray) (n c : ℕ) (unbiased : Bool) : NDArray :=
  ⟨[c], fun ch =>
    sumN n (fun i => (x.data (i * c + ch) - (ndMean2 x n c).data ch) ^ 2) /
      ((n : ℚ) - if unbiased then 1 else 0)⟩

/-- `torch.mean(x, (0, 2, 3))` of an `NDArray` of shape `[n, c, h, w]`. -/
def ndMean4 (x : NDArray) (n c h w : ℕ) : NDArray :=
  ⟨[c], fun ch =>
    sum3 n h w (fun i p q => x.data (((i * c + ch) * h + p) * w + q)) /
      ((n * h * w : ℕ) : ℚ)⟩

/-- `torch.var(x, (0, 2, 3), unbiased)` of an `NDArray` of shape
`[n, c, h, w]`. -/
def ndVar4 (x : NDArray) (n c h w : ℕ) (unbiased : Bool) : NDArray :=
  ⟨[c], fun ch =>
    sum3 n h w (fun i p q =>
      (x.data (((i * c + ch) * h + p) * w + q) - (ndMean4 x n c h w).data ch) ^ 2) /
      (((n * h * w : ℕ) : ℚ) - if unbiased then 1 else 0)⟩

/-- The in-place running update
`running[:] = (1 - momentum) * running + momentum * estimate`
(elementwise, both arrays of shape `[c]`). -/
def ndRunUpdate (run est : NDArray) (momentum : ℚ) : NDArray :=
  ⟨run.shape, fun k => (1 - momentum) * run.data k + momentum * est.data k⟩

/-- Reshape `mean[:, None, None]`: append two size-1 axes (same data). -/
def expand11 (a : NDArray) : NDArray := ⟨a.shape ++ [1, 1], a.data⟩

/-- The output expression of `_batch_norm`,
`(x - mean) * torch.rsqrt(var + eps) * weight + bias`, evaluated with the
substrate's broadcasting. -/
def bnExpr (rsqrt : ℚ → ℚ) (x mean var weight bias : NDArray) (eps : ℚ) :
    Except String NDArray := do
  let d ← bOp (fun u v => u - v) x mean
  let d2 ← bOp (fun u v => u * v) d (eMap (fun v => rsqrt (v + eps)) var)
  let d3 ← bOp (fun u v => u * v) d2 weight
  bOp (fun u v => u + v) d3 bias

/-- Rank-generic embedding of `_batch_norm`, returning
(output, running_mean, running_var); an error models a raise, in which
case no output exists and the caller-owned buffers are untouched.  Note
the `raise ValueError("x dim error")` is reachable only in the
`training` branch, exactly as in the source; the inference branch uses
the running buffers whatever the rank of `x` and relies on broadcasting
alone. -/
def _batch_norm (rsqrt : ℚ → ℚ) (x weight bias running_mean running_var : NDArray)
    (training : Bool) (momentum eps : ℚ) :
    Except String (NDArray × NDArray × NDArray) :=
  if training then
    match x.shape with
    | [n, c] =>
      let mean := ndMean2 x n c
      let eval_var := ndVar2 x n c true
      let var := ndVar2 x n c false
      let rm := ndRunUpdate running_mean mean momentum
      let rv := ndRunUpdate running_var eval_var momentum
      match bnExpr rsqrt x mean var weight bias eps with
      | .error e => .error e
      | .ok out => .ok (out, rm, rv)
    | [n, c, h, w] =>
      let mean := ndMean4 x n c h w
      let eval_var := ndVar4 x n c h w true
      let var := ndVar4 x n c h w false
      let rm := ndRunUpdate running_mean mean momentum
      let rv := ndRunUpdate running_var eval_var momentum
      match bnExpr rsqrt x (expand11 mean) (expand11 var) (expand11 weight)
        (expand11 bias) eps with
      | .error e => .error e
      | .ok out => .ok (out, rm, rv)
    | _ => .error "x dim error"
  else
    let pack :=
      if x.shape.length = 4 then
        (expand11 running_mean, expand11 running_var, expand11 weight, expand11 bias)
      else (running_mean, running_var, weight, bias)
    match bnExpr rsqrt x pack.1 pack.2.1 pack.2.2.1 pack.2.2.2 eps with
    | .error e => .error e
    | .ok out => .ok (out, running_mean, running_var)

/- ------------------------------------------------------------------
`_adaptive_max_pool2d` (only_forward.py:569-591) and the adaptive-bin
layout shared with `_adaptive_avg_pool2d` (545-566) and
`F.adaptive_max_pool2d` (the real torch kernel `_roi_pool` calls).
------------------------------------------------------------------ -/

/-- Bin start of adaptive pooling: `linspace(0, inD, outD+1)[i]` truncated
to an integer, i.e. `⌊i·inD/outD⌋` (the linspace values at the sizes the
claims exercise are exactly representable in float32). -/
def adStart (inD outD i : ℕ) : ℕ := i * inD / outD

/-- Bin end of adaptive pooling: `⌈(i+1)·inD/outD⌉`. -/
def adEnd (inD outD i : ℕ) : ℕ := ((i + 1) * inD + (outD - 1)) / outD

/-- Index list of bin `i` when an axis of extent `inD` is split into
`outD` bins. -/
def adBin (inD outD i : ℕ) : List ℕ :=
  List.range' (adStart inD outD i) (adEnd inD outD i - adStart inD outD i)

/-- Adaptive max pooling of the two trailing axes of a rank-4 array as the
spec describes it (and as torch's `F.adaptive_max_pool2d` computes it):
each output cell is the maximum of `x` over its H-bin × W-bin window,
batch and channel axes intact. -/
def adaptiveMaxPool2dSpec (H W oh ow : ℕ) (x : Mat4) (n c i j : ℕ) : Option ℚ :=
  listMaxQ ((adBin H oh i).flatMap (fun p => (adBin W ow j).map (fun q => x n c p q)))

/-- Length of the Python slice `[a:b]` after clamping to an axis of
length `len` (both bounds nonnegative here). -/
def clampLen (a b len : ℕ) : ℕ := min b len - min a len

/-- Embedding of the rank-4 path of `_adaptive_max_pool2d`.  The source
reads `x[:, pos_h, pos_w]` (only_forward.py:589) rather than
`x[..., pos_h, pos_w]`: on a rank-4 input the H-bin slice `pos_h` lands on
the channel axis (clamped to `C`) and the W-bin slice `pos_w` on the H
axis (clamped to `H`), and the two `torch.max` reductions collapse the H
and W axes of the sliced view.  The `(N, len_i)`-shaped reduction result
is then broadcast-assigned into the `(N, C)` cell slice
`output[..., i, j]`, which requires `len_i ∈ {C, 1}`; `torch.max` raises
on an empty reduction axis.  Errors cover the first offending loop
iteration of the source. -/
def _adaptive_max_pool2d_r4 (C H W oh ow : ℕ) (x : Mat4) : Except String Mat4 :=
  if (∀ i, i < oh → clampLen (adStart H oh i) (adEnd H oh i) C = C ∨
        clampLen (adStart H oh i) (adEnd H oh i) C = 1) ∧
     (∀ j, j < ow → min (adStart W ow j) H < min (adEnd W ow j) H) ∧ 0 < W then
    .ok (fun n c i j =>
      let cs := min (adStart H oh i) C
      let cIdx := if clampLen (adStart H oh i) (adEnd H oh i) C = 1 then cs else cs + c
      (listMaxQ ((List.range' (min (adStart W ow j) H)
          (min (adEnd W ow j) H - min (adStart W ow j) H)).flatMap
        (fun b => (List.range W).map (fun w => x n cIdx b w)))).getD 0)
  else .error "adaptive max pool rank-4 shape error"

/- ------------------------------------------------------------------
`_nearest_interpolate` (only_forward.py:383-407).
------------------------------------------------------------------ -/

/-- Exact model of entry `i` of `torch.linspace(a, b, n)` (torch returns
`[a]` for a single step). -/
def linspaceQ (a b : ℚ) (n i : ℕ) : ℚ :=
  if n ≤ 1 then a else a + i * (b - a) / ((n : ℚ) - 1)

/-- Round to nearest integer with ties to even: `torch.round`. -/
def roundHalfEven (q : ℚ) : ℤ :=
  if q - ⌊q⌋ < 1 / 2 then ⌊q⌋
  else if 1 / 2 < q - ⌊q⌋ then ⌊q⌋ + 1
  else if ⌊q⌋ % 2 = 0 then ⌊q⌋ else ⌊q⌋ + 1

/-- Source coordinate used by `_nearest_interpolate`: the area-aligned
(`align_corners=False`) mapping, and the only one the function contains —
`linspace(-0.5 + h/2, in - 0.5 - h/2, out)` with `h = in/out`. -/
def nearestSrc (inD out i : ℕ) : ℚ :=
  linspaceQ (-(1 / 2) + (inD : ℚ) / (out : ℚ) / 2)
    ((inD : ℚ) - 1 / 2 - (inD : ℚ) / (out : ℚ) / 2) out i

/-- Embedding of `_nearest_interpolate`, one output cell; leading axes
(the `...` of the gather) are carried by the arbitrary index type `α`.
`round().long()` keeps the rounded integer; it is provably in
`[0, inD-1]` (the linspace endpoints lie strictly inside
`(-0.5, inD-0.5)`), so `Int.toNat` embeds the index. -/
def _nearest_interpolate {α : Type} (H W oh ow : ℕ) (x : α → Mat)
    (a : α) (i j : ℕ) : ℚ :=
  x a (roundHalfEven (nearestSrc H oh i)).toNat
    (roundHalfEven (nearestSrc W ow j)).toNat

/-- Modelled from the spec: the corner-aligned (`align_corners=True`)
nearest-neighbour convention, `linspace(0, in-1, out)` rounded and
gathered.  The spec claims this convention is selectable by an
`align_corners` flag of the nearest kernel; in the source it exists only
as a commented-out pair of lines (only_forward.py:400-402) and
`_nearest_interpolate` accepts no such flag. -/
def nearestCornerAligned {α : Type} (H W oh ow : ℕ) (x : α → Mat)
    (a : α) (i j : ℕ) : ℚ :=
  x a (roundHalfEven (linspaceQ 0 ((H : ℚ) - 1) oh i)).toNat
    (roundHalfEven (linspaceQ 0 ((W : ℚ) - 1) ow j)).toNat

/- ------------------------------------------------------------------
`_roi_pool` (only_forward.py:447-472) and
`_roi_align` (only_forward.py:475-542).
`x` is the batch `(N, C, H, W)` given as image-index → rank-3 array;
`boxes` is the per-image list of box lists.  Channel count never matters
(the channel axis is neither reduced nor bounds-checked), so it stays an
unconstrained function index.
------------------------------------------------------------------ -/

/-- A region-of-interest box `(left, top, right, bottom)` in input pixel
coordinates (float entries of the rank-1 box tensor). -/
structure Box where
  left : ℚ
  top : ℚ
  right : ℚ
  bottom : ℚ

/-- The bounds assert shared by `_roi_pool` and `__roi_align`:
`0 <= top and bottom <= H - 1 and 0 <= left and right <= W - 1`. -/
def boxInBounds (H W : ℕ) (b : Box) : Prop :=
  0 ≤ b.top ∧ b.bottom ≤ (H : ℚ) - 1 ∧ 0 ≤ b.left ∧ b.right ≤ (W : ℚ) - 1

instance (H W : ℕ) (b : Box) : Decidable (boxInBounds H W b) := by
  unfold boxInBounds; infer_instance

/-- Message of the failed bounds assert (the only bounds failure). -/
def boundsMsg : String := "roi box out of bounds"

/-- Message of a torch reduction over an empty slice. -/
def emptyMsg : String := "reduction over empty slice"

/-- Message of `torch.stack` on an empty list. -/
def stackMsg : String := "stack expects a non-empty list"

/-- Message of an out-of-range tensor index. -/
def indexMsg : String := "index error"

/-- Message of `F.avg_pool2d` with a non-positive kernel. -/
def kernelMsg : String := "pool kernel size must be positive"

/-- Truncation toward zero: `Tensor.int()` / `Tensor.long()`. -/
def truncQ (q : ℚ) : ℤ := if q < 0 then -(⌊-q⌋) else ⌊q⌋

/-- One output cell of `F.adaptive_max_pool2d` (the real torch kernel, an
external collaborator called by `_roi_pool`) on the rectangular region of
the input selected by the absolute index lists `hIdx`/`wIdx`. -/
def adaptiveMaxCell (xc : Mat) (hIdx wIdx : List ℕ) (oh ow i j : ℕ) : Option ℚ :=
  listMaxQ (((adBin hIdx.length oh i).filterMap hIdx.get?).flatMap
    (fun p => ((adBin wIdx.length ow j).filterMap wIdx.get?).map (fun q => xc p q)))

/-- Per-box computation of `_roi_pool`: the bounds assert, the slice
`x[i, :, top.int() : bottom.ceil().int()+1, left.int() : right.ceil().int()+1]`
(Python slice clamping included), then `F.adaptive_max_pool2d` of the
region, which raises when the region is empty.  Every bin of a non-empty
region is non-empty, so the `getD 0` default of a cell is never taken for
`i < oh`, `j < ow`. -/
def roiPoolBox (H W : ℕ) (xi : Mat3) (oh ow : ℕ) (b : Box) : Except String Mat3 :=
  if boxInBounds H W b then
    let hIdx := sliceIdx (truncQ b.top) (⌈b.bottom⌉ + 1) H
    let wIdx := sliceIdx (truncQ b.left) (⌈b.right⌉ + 1) W
    if hIdx.length = 0 ∨ wIdx.length = 0 then .error emptyMsg
    else .ok (fun c i j => (adaptiveMaxCell (xi c) hIdx wIdx oh ow i j).getD 0)
  else .error boundsMsg

/-- The box loop of `_roi_pool` for one image (appends in order). -/
def roiPoolBoxes (H W : ℕ) (xi : Mat3) (oh ow : ℕ) :
    List Box → Except String (List Mat3)
  | [] => .ok []
  | b :: bl =>
    match roiPoolBox H W xi oh ow b with
    | .error e => .error e
    | .ok v =>
      match roiPoolBoxes H W xi oh ow bl with
      | .error e => .error e
      | .ok vs => .ok (v :: vs)

/-- The image loop of `_roi_pool`. -/
def roiPoolLoop (H W : ℕ) (x : ℕ → Mat3) (oh ow : ℕ) :
    List (ℕ × List Box) → Except String (List Mat3)
  | [] => .ok []
  | (i, bl) :: rest =>
    match roiPoolBoxes H W (x i) oh ow bl with
    | .error e => .error e
    | .ok vs =>
      match roiPoolLoop H W x oh ow rest with
      | .error e => .error e
      | .ok vrest => .ok (vs ++ vrest)

/-- Embedding of `_roi_pool`: the double loop, then `torch.stack` of the
collected outputs (stack raises on an empty list). -/
def _roi_pool (H W : ℕ) (x : ℕ → Mat3) (boxes : List (List Box)) (oh ow : ℕ) :
    Except String (List Mat3) :=
  match roiPoolLoop H W x oh ow boxes.enum with
  | .error e => .error e
  | .ok l => if l.isEmpty then .error stackMsg else .ok l

/-- `sampling_ratio` defaulting of `__roi_align`: when the given value is
non-positive, `(⌈box_h/oh⌉, ⌈box_w/ow⌉)` per axis, else the pair of the
given value. -/
def roiSR (b : Box) (oh ow : ℕ) (sr : ℤ) : ℤ × ℤ :=
  if sr ≤ 0 then (⌈(b.bottom - b.top) / (oh : ℚ)⌉, ⌈(b.right - b.left) / (ow : ℚ)⌉)
  else (sr, sr)

/-- Per-box computation of `__roi_align`: the bounds assert, the
sampling-ratio defaulting, corner-style bilinear sampling of the
`oh·sr0 × ow·sr1` grid, and `F.avg_pool2d` with kernel = stride = the
sampling ratio.  `F.avg_pool2d` raises on a non-positive kernel; the
gathers use `src.long()` (truncation) and `src.ceil().long()` indices and
torch raises when such an index is `≥ H`/`≥ W` (an index `< -H` also
raises; wrapping of small negative indices cannot arise for a box that
passes the assert, and is folded into the same error case). -/
def roiAlignBox (H W : ℕ) (xi : Mat3) (oh ow : ℕ) (sr : ℤ) (b : Box) :
    Except String Mat3 :=
  if boxInBounds H W b then
    let s01 := roiSR b oh ow sr
    if s01.1 ≤ 0 ∨ s01.2 ≤ 0 then .error kernelMsg
    else
      let s0 := s01.1.toNat
      let s1 := s01.2.toNat
      let binH := (b.bottom - b.top) / (oh : ℚ) / (s0 : ℚ)
      let binW := (b.right - b.left) / (ow : ℚ) / (s1 : ℚ)
      let ys := fun p => linspaceQ (b.top + binH / 2) (b.bottom - binH / 2) (oh * s0) p
      let xs := fun q => linspaceQ (b.left + binW / 2) (b.right - binW / 2) (ow * s1) q
      if (∀ p, p < oh * s0 → 0 ≤ truncQ (ys p) ∧ ⌈ys p⌉ < H) ∧
         (∀ q, q < ow * s1 → 0 ≤ truncQ (xs q) ∧ ⌈xs q⌉ < W) then
        let sample := fun c p q =>
          let u := ys p - (truncQ (ys p) : ℚ)
          let v := xs q - (truncQ (xs q) : ℚ)
          (1 - u) * (1 - v) * xi c (truncQ (ys p)).toNat (truncQ (xs q)).toNat +
          (1 - u) * v * xi c (truncQ (ys p)).toNat (⌈xs q⌉).toNat +
          u * (1 - v) * xi c (⌈ys p⌉).toNat (truncQ (xs q)).toNat +
          u * v * xi c (⌈ys p⌉).toNat (⌈xs q⌉).toNat
        .ok (fun c i j =>
          sumN s0 (fun p => sumN s1 (fun q => sample c (i * s0 + p) (j * s1 + q))) /
            ((s0 * s1 : ℕ) : ℚ))
      else .error indexMsg
  else .error boundsMsg

/-- Inner loop of `_roi_align` over the boxes of one image.  The source
rebinds the loop variable `boxes` to the current box
(`boxes = boxes[i][j]`, only_forward.py:538), so once one box has been
processed every further read of `boxes[i]` / `boxes[i][j]` indexes a
rank-1 4-tensor and raises; the `Bool` argument records whether the
rebinding has happened.  The iteration count of the `range` was taken
before the rebinding, hence the structural recursion over the original
list. -/
def roiAlignInner (H W : ℕ) (xi : Mat3) (oh ow : ℕ) (sr : ℤ) :
    Bool → List Box → List Mat3 → Except String (Bool × List Mat3)
  | rb, [], acc => .ok (rb, acc)
  | true, _ :: _, _ => .error indexMsg
  | false, b :: bl, acc =>
    match roiAlignBox H W xi oh ow sr b with
    | .error e => .error e
    | .ok v => roiAlignInner H W xi oh ow sr true bl (acc ++ [v])

/-- Outer loop of `_roi_align` over images; reading `boxes[i].shape[0]`
after the rebinding raises as well. -/
def roiAlignOuter (H W : ℕ) (x : ℕ → Mat3) (oh ow : ℕ) (sr : ℤ) :
    Bool → List (ℕ × List Box) → List Mat3 → Except String (List Mat3)
  | _, [], acc => .ok acc
  | true, _ :: _, _ => .error indexMsg
  | false, (i, bl) :: rest, acc =>
    match roiAlignInner H W (x i) oh ow sr false bl acc with
    | .error e => .error e
    | .ok (rb, acc2) => roiAlignOuter H W x oh ow sr rb rest acc2

/-- Embedding of `_roi_align`: the (rebinding-afflicted) double loop,
then `torch.stack`. -/
def _roi_align (H W : ℕ) (x : ℕ → Mat3) (boxes : List (List Box)) (oh ow : ℕ)
    (sr : ℤ) : Except String (List Mat3) :=
  match roiAlignOuter H W x oh ow sr false boxes.enum [] with
  | .error e => .error e
  | .ok l => if l.isEmpty then .error stackMsg else .ok l

/-- `true` iff the `Except` is an error (a raise of the embedded code). -/
def exceptIsError {β : Type} : Except String β → Bool
  | .error _ => true
  | .ok _ => false

/- ------------------------------------------------------------------
`_rnn_cell` (only_forward.py:594-614), `_lstm_cell` (617-657),
`_gru_cell` (660-693).

The `weight` list is passed as four explicit arrays
(`wih`, `whh`, `bih`, `bhh`); `cin = weight[0].shape[1]`,
`wRows = weight[0].shape[0]`, and `n = x0.shape[0]`.  The Python `bias`
parameter is embedded as `Option Bool`: the assert
`isinstance(bias, bool)` is `bias.isSome`, and each bias-addition site
`weight[k] if bias is not None else 0` is guarded by `bias.isSome` —
true for `some true` and `some false` alike, which is what claim C10 is
about.  `h0`/`c0` may be `None`, in which case the code builds zeros
with batch size `x0.shape[0]`; `nh`/`nc` are the batch dimensions of the
passed states (ignored when `None`).  `torch.sigmoid` / `torch.tanh` are
substrate functions, passed as `sigmoidF` / `tanhF`. -/

/-- Embedding of `_rnn_cell`. -/
def _rnn_cell (tanhF : ℚ → ℚ) (n cin ch : ℕ) (x0 : Mat) (h0opt : Option Mat)
    (nh : ℕ) (wih whh : Mat) (bih bhh : Vec) (bias : Option Bool) :
    Except String Mat :=
  let h0 := h0opt.getD (fun _ _ => 0)
  let nh0 := if h0opt.isSome then nh else n
  if n = nh0 ∧ bias.isSome then
    .ok (fun r j => tanhF
      (dotN cin (x0 r) (fun k => wih j k) + (if bias.isSome then bih j else 0) +
       dotN ch (h0 r) (fun k => whh j k) + (if bias.isSome then bhh j else 0)))
  else .error "assert failed"

/-- Gate pre-activation of a stacked-weight cell: gate `g` occupies rows
`[g·cHide, (g+1)·cHide)` of the stacked arrays, so row `j` of gate `g` is
stacked row `g·cHide + j`; the value is
`x0 @ Wi[g]ᵗ + bi[g] + h0 @ Wh[g]ᵗ + bh[g]` (each bias guarded by
`bias is not None`). -/
def gatePre (cin cHide : ℕ) (x0 h0 : Mat) (wih whh : Mat) (bih bhh : Vec)
    (bias : Option Bool) (g r j : ℕ) : ℚ :=
  dotN cin (x0 r) (fun k => wih (g * cHide + j) k) +
    (if bias.isSome then bih (g * cHide + j) else 0) +
  dotN cHide (h0 r) (fun k => whh (g * cHide + j) k) +
    (if bias.isSome then bhh (g * cHide + j) else 0)

/-- Embedding of `_lstm_cell`; gate stacking order `(i, f, g, o)` with
`c_hide = weight[0].shape[0] // 4`; returns `(h1, c1)`. -/
def _lstm_cell (sigmoidF tanhF : ℚ → ℚ) (n cin wRows : ℕ) (x0 : Mat)
    (h0opt c0opt : Option Mat) (nh nc : ℕ) (wih whh : Mat) (bih bhh : Vec)
    (bias : Option Bool) : Except String (Mat × Mat) :=
  let cHide := wRows / 4
  let h0 := h0opt.getD (fun _ _ => 0)
  let c0 := c0opt.getD (fun _ _ => 0)
  let nh0 := if h0opt.isSome then nh else n
  let nc0 := if c0opt.isSome then nc else n
  if n = nh0 ∧ nh0 = nc0 ∧ bias.isSome then
    let gi := fun r j => sigmoidF (gatePre cin cHide x0 h0 wih whh bih bhh bias 0 r j)
    let gf := fun r j => sigmoidF (gatePre cin cHide x0 h0 wih whh bih bhh bias 1 r j)
    let gg := fun r j => tanhF (gatePre cin cHide x0 h0 wih whh bih bhh bias 2 r j)
    let go := fun r j => sigmoidF (gatePre cin cHide x0 h0 wih whh bih bhh bias 3 r j)
    let c1 := fun r j => gf r j * c0 r j + gi r j * gg r j
    .ok ((fun r j => go r j * tanhF (c1 r j)), c1)
  else .error "assert failed"

/-- Hidden-side contribution to the GRU candidate gate,
`h0 @ Whn.t() + bhn` (gate 2 of the 3×-stacked hidden weights; the bias
is inside the parenthesis the reset gate multiplies). -/
def gruHPart (cHide : ℕ) (h0 : Mat) (whh : Mat) (bhh : Vec)
    (bias : Option Bool) (g r j : ℕ) : ℚ :=
  dotN cHide (h0 r) (fun k => whh (g * cHide + j) k) +
    (if bias.isSome then bhh (g * cHide + j) else 0)

/-- Input-side contribution to a GRU gate, `x0 @ Wi[g].t() + bi[g]`. -/
def gruXPart (cin cHide : ℕ) (x0 : Mat) (wih : Mat) (bih : Vec)
    (bias : Option Bool) (g r j : ℕ) : ℚ :=
  dotN cin (x0 r) (fun k => wih (g * cHide + j) k) +
    (if bias.isSome then bih (g * cHide + j) else 0)

/-- Embedding of `_gru_cell`; gate stacking order `(r, z, n)` with
`c_hide = weight[0].shape[0] // 3`.  The candidate is
`tanh(x-part + r ⊙ h-part)`: the reset gate multiplies only the
hidden-to-hidden contribution `h0 @ Whn.t() + bhn`. -/
def _gru_cell (sigmoidF tanhF : ℚ → ℚ) (n cin wRows : ℕ) (x0 : Mat)
    (h0opt : Option Mat) (nh : ℕ) (wih whh : Mat) (bih bhh : Vec)
    (bias : Option Bool) : Except String Mat :=
  let cHide := wRows / 3
  let h0 := h0opt.getD (fun _ _ => 0)
  let nh0 := if h0opt.isSome then nh else n
  if n = nh0 ∧ bias.isSome then
    let gr := fun r j => sigmoidF (gruXPart cin cHide x0 wih bih bias 0 r j +
      gruHPart cHide h0 whh bhh bias 0 r j)
    let gz := fun r j => sigmoidF (gruXPart cin cHide x0 wih bih bias 1 r j +
      gruHPart cHide h0 whh bhh bias 1 r j)
    let gn := fun r j => tanhF (gruXPart cin cHide x0 wih bih bias 2 r j +
      gr r j * gruHPart cHide h0 whh bhh bias 2 r j)
    .ok (fun r j => (1 - gz r j) * gn r j + gz r j * h0 r j)
  else .error "assert failed"

/-- Value of an `Except`-wrapped matrix at one entry (`none` on error). -/
def exGetM (e : Except String Mat) (i j : ℕ) : Option ℚ :=
  match e with
  | .ok m => some (m i j)
  | .error _ => none

/-- Values of an `Except`-wrapped pair of matrices at one entry. -/
def exGetM2 (e : Except String (Mat × Mat)) (i j : ℕ) : Option (ℚ × ℚ) :=
  match e with
  | .ok p => some (p.1 i j, p.2 i j)
  | .error _ => none

/-- Value of an `Except`-wrapped rank-4 array at one entry. -/
def exGetM4 (e : Except String Mat4) (n c i j : ℕ) : Option ℚ :=
  match e with
  | .ok m => some (m n c i j)
  | .error _ => none

/- ==================================================================
Theorems.
================================================================== -/

theorem sumN_zero_fun (k : ℕ) (f : ℕ → ℚ) (h : ∀ i, f i = 0) : sumN k f = 0 := by
  unfold sumN
  refine List.sum_eq_zero ?_
  intro x hx
  rcases List.mem_map.1 hx with ⟨i, _, rfl⟩
  exact h i

theorem dotN_zero_right (k : ℕ) (f : Vec) : dotN k f (fun _ => 0) = 0 :=
  sumN_zero_fun _ _ (fun _ => mul_zero _)

theorem dotN_zero_left (k : ℕ) (g : Vec) : dotN k (fun _ => 0) g = 0 :=
  sumN_zero_fun _ _ (fun _ => zero_mul _)

/-- C1: the claim says `_linear` with absent bias returns the matrix
product `x @ weight.t()` of shape `(N, Out)`.  The code instead returns
the Python float `0.` (the conditional expression swallows the sum); at
`x = [[2]]`, `weight = [[3]]` the claimed result is the 1×1 matrix
`[[6]]` while the code result is the scalar `0.`, confirming the bug. -/
theorem linear_none_bias_returns_float_zero :
    _linear 1 (fun _ _ => 2) (fun _ _ => 3) none = LinOut.scalar 0 ∧
    linearNoBiasSpec 1 (fun _ _ => 2) (fun _ _ => 3) 0 0 = 6 := by
  constructor
  · rfl
  · norm_num [linearNoBiasSpec, dotN, sumN]

/-- C2: on an all-ones 2×2 input (arbitrary leading batch/channel index),
`kernel=2, stride=1, padding=1` pooling gives a 3×3 output; every max-pool
cell equals `1` (clamped windows never see padding), while every boundary
avg-pool cell is strictly below `1` (padded zeros enter the mean). -/
theorem pool_padding_asymmetry_on_ones {α : Type} (x : α → Mat) (a : α)
    (hx : ∀ i j, i < 2 → j < 2 → x a i j = 1) :
    poolOutDim 2 2 1 1 = 3 ∧
    (∀ i j, i < 3 → j < 3 →
      _max_pool2d 2 2 2 2 1 1 1 1 x a i j = some 1) ∧
    (∀ i j, i < 3 → j < 3 → (i = 0 ∨ i = 2 ∨ j = 0 ∨ j = 2) →
      _avg_pool2d 2 2 2 2 1 1 1 x a i j < 1) := by
  have h00 := hx 0 0 (by norm_num) (by norm_num)
  have h01 := hx 0 1 (by norm_num) (by norm_num)
  have h10 := hx 1 0 (by norm_num) (by norm_num)
  have h11 := hx 1 1 (by norm_num) (by norm_num)
  refine ⟨rfl, ?_, ?_⟩
  · intro i j hi hj
    interval_cases i <;> interval_cases j <;>
      norm_num [_max_pool2d, maxPoolWin, listMaxQ, sliceIdx, sliceBound,
        List.range', h00, h01, h10, h11]
  · intro i j hi hj hb
    interval_cases i <;> interval_cases j <;>
      norm_num [_avg_pool2d, avgPoolWin, padZero, sliceIdx, sliceBound,
        List.range', show Int.toNat 2 = 2 from rfl, h00, h01, h10, h11] at hb ⊢

/-- Witness for C2 at the concrete all-ones input: the corner avg cell is
`1/4 < 1` and the corner max cell is `1`. -/
theorem pool_padding_asymmetry_on_ones_witness :
    _max_pool2d 2 2 2 2 1 1 1 1 (fun _ : Unit => fun _ _ => 1) () 0 0 = some 1 ∧
    _avg_pool2d 2 2 2 2 1 1 1 (fun _ : Unit => fun _ _ => 1) () 0 0 < 1 :=
  ⟨(pool_padding_asymmetry_on_ones _ () (fun _ _ _ _ => rfl)).2.1 0 0
      (by norm_num) (by norm_num),
   (pool_padding_asymmetry_on_ones _ () (fun _ _ _ _ => rfl)).2.2 0 0
      (by norm_num) (by norm_num) (by norm_num)⟩

/-- C3: in training mode `_batch_norm` normalizes with the biased
variance (divisor `N`, over all axes but the channel axis) and updates the
caller-owned buffers as
`running_mean := (1-momentum)·running_mean + momentum·mean` and
`running_var := (1-momentum)·running_var + momentum·unbiased_var`
(divisor `N−1`); the unbiased variance never enters the normalization.
Both admissible ranks: rank-2 `(N, C)` with `N` samples per channel, and
rank-4 `(N, C, H, W)` with `N·H·W` samples per channel.  The in-place
buffer writes are the returned buffer components. -/
theorem batch_norm_train_biased_vs_unbiased :
    ∀ (rsqrt : ℚ → ℚ) (n h w : ℕ) (x2 : Mat) (x4 : Mat4)
      (wt bs rm rv : Vec) (momentum eps : ℚ) (i c p q : ℕ),
      ((batchNorm2dTrain rsqrt n x2 wt bs rm rv momentum eps).1 i c =
        (x2 i c - sumN n (fun r => x2 r c) / (n : ℚ)) *
          rsqrt (sumN n (fun r => (x2 r c - sumN n (fun s => x2 s c) / (n : ℚ)) ^ 2) /
            (n : ℚ) + eps) * wt c + bs c) ∧
      ((batchNorm2dTrain rsqrt n x2 wt bs rm rv momentum eps).2.1 c =
        (1 - momentum) * rm c + momentum * (sumN n (fun r => x2 r c) / (n : ℚ))) ∧
      ((batchNorm2dTrain rsqrt n x2 wt bs rm rv momentum eps).2.2 c =
        (1 - momentum) * rv c + momentum *
          (sumN n (fun r => (x2 r c - sumN n (fun s => x2 s c) / (n : ℚ)) ^ 2) /
            ((n : ℚ) - 1))) ∧
      ((batchNorm4dTrain rsqrt n h w x4 wt bs rm rv momentum eps).1 i c p q =
        (x4 i c p q - sum3 n h w (fun r u v => x4 r c u v) / ((n * h * w : ℕ) : ℚ)) *
          rsqrt (sum3 n h w (fun r u v =>
              (x4 r c u v - sum3 n h w (fun s u2 v2 => x4 s c u2 v2) /
                ((n * h * w : ℕ) : ℚ)) ^ 2) / ((n * h * w : ℕ) : ℚ) + eps) *
          wt c + bs c) ∧
      ((batchNorm4dTrain rsqrt n h w x4 wt bs rm rv momentum eps).2.1 c =
        (1 - momentum) * rm c + momentum *
          (sum3 n h w (fun r u v => x4 r c u v) / ((n * h * w : ℕ) : ℚ))) ∧
      ((batchNorm4dTrain rsqrt n h w x4 wt bs rm rv momentum eps).2.2 c =
        (1 - momentum) * rv c + momentum *
          (sum3 n h w (fun r u v =>
              (x4 r c u v - sum3 n h w (fun s u2 v2 => x4 s c u2 v2) /
                ((n * h * w : ℕ) : ℚ)) ^ 2) / (((n * h * w : ℕ) : ℚ) - 1))) := by
  intro rsqrt n h w x2 x4 wt bs rm rv momentum eps i c p q
  refine ⟨?_, rfl, rfl, ?_, rfl, rfl⟩ <;>
    simp [batchNorm2dTrain, batchNorm4dTrain, mean2d, var2d, mean4d, var4d]

/-- C4 counterexample: the claim says `_batch_norm` fails on inputs of
rank ∉ {2, 4} "in inference mode just as in training mode".  In the code
the rank check sits inside the `if training:` branch only: a rank-3 input
of shape `[1, 1, 1]` in inference mode raises nothing — the running
statistics broadcast against it and an output is produced. -/
theorem batch_norm_inference_rank3_no_raise :
    exceptIsError (_batch_norm (fun v => v)
      ⟨[1, 1, 1], fun _ => 5⟩ ⟨[1], fun _ => 1⟩ ⟨[1], fun _ => 0⟩
      ⟨[1], fun _ => 0⟩ ⟨[1], fun _ => 1⟩ false (1 / 10) (1 / 100000)) = false := by
  rfl

/-- C4 (amended): in training mode `_batch_norm` raises
`ValueError("x dim error")` for every input whose rank is neither 2 nor
4, producing no output and leaving the running buffers unmodified (the
raise happens before the buffer writes); in inference mode the rank
check is not performed. -/
theorem batch_norm_training_rank_check (rsqrt : ℚ → ℚ)
    (x wt bs rm rv : NDArray) (momentum eps : ℚ)
    (h2 : x.shape.length ≠ 2) (h4 : x.shape.length ≠ 4) :
    _batch_norm rsqrt x wt bs rm rv true momentum eps = .error "x dim error" := by
  obtain ⟨sh, d⟩ := x
  rcases sh with _ | ⟨a, _ | ⟨b, _ | ⟨c, _ | ⟨e, _ | t⟩⟩⟩⟩ <;>
    simp_all [_batch_norm]

/-- Witness for C4's amended theorem at a concrete rank-3 input. -/
theorem batch_norm_training_rank_check_witness :
    (([1, 1, 1] : List ℕ).length ≠ 2) ∧ (([1, 1, 1] : List ℕ).length ≠ 4) ∧
    _batch_norm (fun v => v) ⟨[1, 1, 1], fun _ => 5⟩ ⟨[1], fun _ => 1⟩
      ⟨[1], fun _ => 0⟩ ⟨[1], fun _ => 0⟩ ⟨[1], fun _ => 1⟩ true (1 / 10)
      (1 / 100000) = .error "x dim error" :=
  ⟨by decide, by decide,
   batch_norm_training_rank_check _ _ _ _ _ _ _ _ (by decide) (by decide)⟩

/-- C5: the claim says adaptive max pooling reduces each H-bin × W-bin
window over the two spatial axes for rank-3 and rank-4 inputs.  For
rank-4 inputs the code misindexes (`x[:, pos_h, pos_w]` at
only_forward.py:589 slices the channel and H axes and reduces H and W):
on the `(1, 2, 2, 2)` input that is `5` at (0, 0, 0, 1) and `0`
elsewhere, `output_size = (1, 2)`, cell (0, 0, 0, 0) comes out as `5`
where the claimed H-bin × W-bin maximum is `0`. -/
theorem adaptive_max_pool_rank4_misindexes :
    exGetM4 (_adaptive_max_pool2d_r4 2 2 2 1 2
      (fun _ c pp qq => if c = 0 ∧ pp = 0 ∧ qq = 1 then 5 else 0)) 0 0 0 0 = some 5 ∧
    adaptiveMaxPool2dSpec 2 2 1 2
      (fun _ c pp qq => if c = 0 ∧ pp = 0 ∧ qq = 1 then 5 else 0) 0 0 0 0 = some 0 := by
  decide

/-- C6 counterexample: the claim says `_nearest_interpolate` implements
two conventions selected by an `align_corners` flag.  The function takes
no such flag and contains only the area-aligned mapping (the
corner-aligned `linspace(0, in-1, out)` variant is a commented-out pair
of lines): on the `(1, 1, 4)` input `[[0, 0, 0, 7]]` resized to width 2,
the code's output at the right boundary is `0` while the corner-aligned
convention yields `7` — the corner-aligned behaviour is not available
from the nearest kernel. -/
theorem nearest_interpolate_no_corner_mode :
    _nearest_interpolate 1 4 1 2
      (fun _ : Unit => fun i j => if i = 0 ∧ j = 3 then 7 else 0) () 0 1 = 0 ∧
    nearestCornerAligned 1 4 1 2
      (fun _ : Unit => fun i j => if i = 0 ∧ j = 3 then 7 else 0) () 0 1 = 7 := by
  constructor <;>
    norm_num [_nearest_interpolate, nearestCornerAligned, nearestSrc,
      linspaceQ, roundHalfEven, show Int.toNat 2 = 2 from rfl,
      show Int.toNat 3 = 3 from rfl]

theorem nearestSrc_eq (inD out i : ℕ) (hi : i < out) :
    nearestSrc inD out i = ((i : ℚ) + 1 / 2) * ((inD : ℚ) / (out : ℚ)) - 1 / 2 := by
  unfold nearestSrc linspaceQ
  rcases Nat.lt_or_ge out 2 with h | h
  · interval_cases out
    · omega
    · interval_cases i
      rw [if_pos (by norm_num)]
      ring
  · rw [if_neg (by omega)]
    have ho : (out : ℚ) ≠ 0 := by
      exact_mod_cast Nat.pos_iff_ne_zero.1 (by omega)
    have h1 : (out : ℚ) - 1 ≠ 0 := by
      have : (2 : ℚ) ≤ (out : ℚ) := by exact_mod_cast h
      intro hc
      nlinarith
    field_simp
    ring

/-- C6 (amended): the nearest-neighbour kernel implements only the
area-aligned (`align_corners=False`) convention — each output coordinate
`i < out` maps to the source coordinate `(i + 1/2)·(in/out) - 1/2`
(pixels as unit squares, offset by half the inverse scale step), rounded
to the nearest integer (ties to even) and gathered; no `align_corners`
flag exists on `_nearest_interpolate`, and the corner-aligned mapping is
present only as a comment. -/
theorem nearest_interpolate_area_aligned {α : Type} (H W oh ow : ℕ)
    (x : α → Mat) (a : α) (i j : ℕ) (hi : i < oh) (hj : j < ow) :
    _nearest_interpolate H W oh ow x a i j =
      x a (roundHalfEven (((i : ℚ) + 1 / 2) * ((H : ℚ) / (oh : ℚ)) - 1 / 2)).toNat
          (roundHalfEven (((j : ℚ) + 1 / 2) * ((W : ℚ) / (ow : ℚ)) - 1 / 2)).toNat := by
  unfold _nearest_interpolate
  rw [nearestSrc_eq H oh i hi, nearestSrc_eq W ow j hj]

/-- Witness for C6's amended theorem at a concrete input. -/
theorem nearest_interpolate_area_aligned_witness :
    _nearest_interpolate 1 4 1 2
      (fun _ : Unit => fun i j => if i = 0 ∧ j = 3 then 7 else 0) () 0 1 =
    (fun _ : Unit => fun i j => if i = 0 ∧ j = 3 then (7 : ℚ) else 0) ()
      (roundHalfEven (((0 : ℚ) + 1 / 2) * ((1 : ℚ) / (1 : ℚ)) - 1 / 2)).toNat
      (roundHalfEven (((1 : ℚ) + 1 / 2) * ((4 : ℚ) / (2 : ℚ)) - 1 / 2)).toNat :=
  nearest_interpolate_area_aligned 1 4 1 2 _ () 0 1 (by decide) (by decide)

theorem emptyMsg_ne_boundsMsg : emptyMsg ≠ boundsMsg := by decide

theorem kernelMsg_ne_boundsMsg : kernelMsg ≠ boundsMsg := by decide

theorem indexMsg_ne_boundsMsg : indexMsg ≠ boundsMsg := by decide

theorem stackMsg_ne_boundsMsg : stackMsg ≠ boundsMsg := by decide

theorem roiPoolBox_oob (H W : ℕ) (xi : Mat3) (oh ow : ℕ) (b : Box)
    (h : ¬ boxInBounds H W b) :
    roiPoolBox H W xi oh ow b = .error boundsMsg := by
  simp [roiPoolBox, h]

theorem roiPoolBox_inb (H W : ℕ) (xi : Mat3) (oh ow : ℕ) (b : Box)
    (h : boxInBounds H W b) :
    roiPoolBox H W xi oh ow b ≠ .error boundsMsg := by
  simp only [roiPoolBox, if_pos h]
  split
  · simp [emptyMsg_ne_boundsMsg]
  · simp

theorem roiPoolBoxes_oob (H W : ℕ) (xi : Mat3) (oh ow : ℕ) (bl : List Box)
    (h : ∃ b ∈ bl, ¬ boxInBounds H W b) :
    exceptIsError (roiPoolBoxes H W xi oh ow bl) = true := by
  induction bl with
  | nil => rcases h with ⟨b, hb, _⟩; cases hb
  | cons b bl ih =>
    rcases h with ⟨b2, hb2, hoob⟩
    rcases List.mem_cons.1 hb2 with rfl | hmem
    · simp [roiPoolBoxes, roiPoolBox_oob H W xi oh ow b2 hoob, exceptIsError]
    · cases hh : roiPoolBox H W xi oh ow b with
      | error e => simp [roiPoolBoxes, hh, exceptIsError]
      | ok v =>
        have htail := ih ⟨b2, hmem, hoob⟩
        cases h2 : roiPoolBoxes H W xi oh ow bl with
        | error e => simp [roiPoolBoxes, hh, h2, exceptIsError]
        | ok vs => rw [h2, exceptIsError] at htail; cases htail

theorem roiPoolBoxes_inb (H W : ℕ) (xi : Mat3) (oh ow : ℕ) (bl : List Box)
    (h : ∀ b ∈ bl, boxInBounds H W b) :
    roiPoolBoxes H W xi oh ow bl ≠ .error boundsMsg := by
  induction bl with
  | nil => simp [roiPoolBoxes]
  | cons b bl ih =>
    have hb := roiPoolBox_inb H W xi oh ow b (h b (List.mem_cons_self b bl))
    cases hh : roiPoolBox H W xi oh ow b with
    | error e =>
      have he : e ≠ boundsMsg := fun hc => hb (hh.trans (by rw [hc]))
      simp [roiPoolBoxes, hh, he]
    | ok v =>
      have htail := ih (fun b2 hb2 => h b2 (List.mem_cons_of_mem b hb2))
      cases h2 : roiPoolBoxes H W xi oh ow bl with
      | error e =>
        have he : e ≠ boundsMsg := fun hc => htail (h2.trans (by rw [hc]))
        simp [roiPoolBoxes, hh, h2, he]
      | ok vs => simp [roiPoolBoxes, hh, h2]

theorem roiPoolLoop_oob (H W : ℕ) (x : ℕ → Mat3) (oh ow : ℕ)
    (l : List (ℕ × List Box))
    (h : ∃ p ∈ l, ∃ b ∈ p.2, ¬ boxInBounds H W b) :
    exceptIsError (roiPoolLoop H W x oh ow l) = true := by
  induction l with
  | nil => rcases h with ⟨p, hp, _⟩; cases hp
  | cons p rest ih =>
    obtain ⟨i, bl⟩ := p
    rcases h with ⟨p2, hp2, hb⟩
    rcases List.mem_cons.1 hp2 with rfl | hmem
    · have := roiPoolBoxes_oob H W (x i) oh ow bl hb
      cases hh : roiPoolBoxes H W (x i) oh ow bl with
      | error e => simp [roiPoolLoop, hh, exceptIsError]
      | ok vs => rw [hh, exceptIsError] at this; cases this
    · cases hh : roiPoolBoxes H W (x i) oh ow bl with
      | error e => simp [roiPoolLoop, hh, exceptIsError]
      | ok vs =>
        have htail := ih ⟨p2, hmem, hb⟩
        cases h2 : roiPoolLoop H W x oh ow rest with
        | error e => simp [roiPoolLoop, hh, h2, exceptIsError]
        | ok vrest => rw [h2, exceptIsError] at htail; cases htail

theorem roiPoolLoop_inb (H W : ℕ) (x : ℕ → Mat3) (oh ow : ℕ)
    (l : List (ℕ × List Box))
    (h : ∀ p ∈ l, ∀ b ∈ p.2, boxInBounds H W b) :
    roiPoolLoop H W x oh ow l ≠ .error boundsMsg := by
  induction l with
  | nil => simp [roiPoolLoop]
  | cons p rest ih =>
    obtain ⟨i, bl⟩ := p
    have hhd := roiPoolBoxes_inb H W (x i) oh ow bl
      (h (i, bl) (List.mem_cons_self _ _))
    cases hh : roiPoolBoxes H W (x i) oh ow bl with
    | error e =>
      have he : e ≠ boundsMsg := fun hc => hhd (hh.trans (by rw [hc]))
      simp [roiPoolLoop, hh, he]
    | ok vs =>
      have htail := ih (fun p2 hp2 => h p2 (List.mem_cons_of_mem _ hp2))
      cases h2 : roiPoolLoop H W x oh ow rest with
      | error e =>
        have he : e ≠ boundsMsg := fun hc => htail (h2.trans (by rw [hc]))
        simp [roiPoolLoop, hh, h2, he]
      | ok vrest => simp [roiPoolLoop, hh, h2]

theorem roiAlignBox_oob (H W : ℕ) (xi : Mat3) (oh ow : ℕ) (sr : ℤ) (b : Box)
    (h : ¬ boxInBounds H W b) :
    roiAlignBox H W xi oh ow sr b = .error boundsMsg := by
  simp [roiAlignBox, h]

theorem roiAlignBox_inb (H W : ℕ) (xi : Mat3) (oh ow : ℕ) (sr : ℤ) (b : Box)
    (h : boxInBounds H W b) :
    roiAlignBox H W xi oh ow sr b ≠ .error boundsMsg := by
  simp only [roiAlignBox, if_pos h]
  split
  · simp [kernelMsg_ne_boundsMsg]
  · split
    · simp
    · simp [indexMsg_ne_boundsMsg]

theorem roiAlignInner_oob (H W : ℕ) (xi : Mat3) (oh ow : ℕ) (sr : ℤ)
    (bl : List Box) (h : ∃ b ∈ bl, ¬ boxInBounds H W b) :
    ∀ (rb : Bool) (acc : List Mat3),
      exceptIsError (roiAlignInner H W xi oh ow sr rb bl acc) = true := by
  induction bl with
  | nil => rcases h with ⟨b, hb, _⟩; cases hb
  | cons b bl ih =>
    intro rb acc
    cases rb with
    | true => rfl
    | false =>
      rcases h with ⟨b2, hb2, hoob⟩
      rcases List.mem_cons.1 hb2 with rfl | hmem
      · simp [roiAlignInner, roiAlignBox_oob H W xi oh ow sr b2 hoob, exceptIsError]
      · cases hh : roiAlignBox H W xi oh ow sr b with
        | error e => simp [roiAlignInner, hh, exceptIsError]
        | ok v =>
          simp only [roiAlignInner, hh]
          exact ih ⟨b2, hmem, hoob⟩ true (acc ++ [v])

theorem roiAlignInner_inb (H W : ℕ) (xi : Mat3) (oh ow : ℕ) (sr : ℤ)
    (bl : List Box) (h : ∀ b ∈ bl, boxInBounds H W b) :
    ∀ (rb : Bool) (acc : List Mat3),
      roiAlignInner H W xi oh ow sr rb bl acc ≠ .error boundsMsg := by
  induction bl with
  | nil => intro rb acc; simp [roiAlignInner]
  | cons b bl ih =>
    intro rb acc
    cases rb with
    | true => simp [roiAlignInner, indexMsg_ne_boundsMsg]
    | false =>
      have hb := roiAlignBox_inb H W xi oh ow sr b (h b (List.mem_cons_self b bl))
      cases hh : roiAlignBox H W xi oh ow sr b with
      | error e =>
        have he : e ≠ boundsMsg := fun hc => hb (hh.trans (by rw [hc]))
        simp [roiAlignInner, hh, he]
      | ok v =>
        simp only [roiAlignInner, hh]
        exact ih (fun b2 hb2 => h b2 (List.mem_cons_of_mem b hb2)) true (acc ++ [v])

theorem roiAlignOuter_oob (H W : ℕ) (x : ℕ → Mat3) (oh ow : ℕ) (sr : ℤ)
    (l : List (ℕ × List Box))
    (h : ∃ p ∈ l, ∃ b ∈ p.2, ¬ boxInBounds H W b) :
    ∀ (rb : Bool) (acc : List Mat3),
      exceptIsError (roiAlignOuter H W x oh ow sr rb l acc) = true := by
  induction l with
  | nil => rcases h with ⟨p, hp, _⟩; cases hp
  | cons p rest ih =>
    intro rb acc
    obtain ⟨i, bl⟩ := p
    cases rb with
    | true => rfl
    | false =>
      rcases h with ⟨p2, hp2, hb⟩
      rcases List.mem_cons.1 hp2 with rfl | hmem
      · have hin := roiAlignInner_oob H W (x i) oh ow sr bl hb false acc
        cases hh : roiAlignInner H W (x i) oh ow sr false bl acc with
        | error e => simp [roiAlignOuter, hh, exceptIsError]
        | ok pr => rw [hh, exceptIsError] at hin; cases hin
      · cases hh : roiAlignInner H W (x i) oh ow sr false bl acc with
        | error e => simp [roiAlignOuter, hh, exceptIsError]
        | ok pr =>
          simp only [roiAlignOuter, hh]
          exact ih ⟨p2, hmem, hb⟩ pr.1 pr.2

theorem roiAlignOuter_inb (H W : ℕ) (x : ℕ → Mat3) (oh ow : ℕ) (sr : ℤ)
    (l : List (ℕ × List Box))
    (h : ∀ p ∈ l, ∀ b ∈ p.2, boxInBounds H W b) :
    ∀ (rb : Bool) (acc : List Mat3),
      roiAlignOuter H W x oh ow sr rb l acc ≠ .error boundsMsg := by
  induction l with
  | nil => intro rb acc; cases rb <;> simp [roiAlignOuter]
  | cons p rest ih =>
    intro rb acc
    obtain ⟨i, bl⟩ := p
    cases rb with
    | true => simp [roiAlignOuter, indexMsg_ne_boundsMsg]
    | false =>
      have hin := roiAlignInner_inb H W (x i) oh ow sr bl
        (h (i, bl) (List.mem_cons_self _ _)) false acc
      cases hh : roiAlignInner H W (x i) oh ow sr false bl acc with
      | error e =>
        have he : e ≠ boundsMsg := fun hc => hin (hh.trans (by rw [hc]))
        simp [roiAlignOuter, hh, he]
      | ok pr =>
        simp only [roiAlignOuter, hh]
        exact ih (fun p2 hp2 => h p2 (List.mem_cons_of_mem _ hp2)) pr.1 pr.2

theorem mem_enum_snd (boxes : List (List Box)) (bl : List Box)
    (h : bl ∈ boxes) : ∃ p ∈ boxes.enum, p.2 = bl := by
  have : bl ∈ boxes.enum.map Prod.snd := by rw [List.enum_map_snd]; exact h
  rcases List.mem_map.1 this with ⟨p, hp, hpe⟩
  exact ⟨p, hp, hpe⟩

theorem enum_snd_mem (boxes : List (List Box)) (p : ℕ × List Box)
    (h : p ∈ boxes.enum) : p.2 ∈ boxes := by
  rw [← List.enum_map_snd boxes]
  exact List.mem_map.2 ⟨p, h, rfl⟩

/-- C7: for any box list containing a box violating the shared bounds
assert (`top < 0`, `left < 0`, `bottom > H-1` or `right > W-1`), both
`_roi_pool` and `_roi_align` raise and produce no output; for box lists
whose boxes all lie within bounds, no failure arises from the bounds
check (other failure modes — empty regions, torch.stack on an empty
list, the `boxes`-rebinding slip in `_roi_align`'s loop — are distinct
errors). -/
theorem roi_out_of_bounds_box_policy (H W : ℕ) (x : ℕ → Mat3)
    (boxes : List (List Box)) (oh ow : ℕ) (sr : ℤ) :
    ((∃ bl ∈ boxes, ∃ b ∈ bl, ¬ boxInBounds H W b) →
      exceptIsError (_roi_pool H W x boxes oh ow) = true ∧
      exceptIsError (_roi_align H W x boxes oh ow sr) = true) ∧
    ((∀ bl ∈ boxes, ∀ b ∈ bl, boxInBounds H W b) →
      _roi_pool H W x boxes oh ow ≠ .error boundsMsg ∧
      _roi_align H W x boxes oh ow sr ≠ .error boundsMsg) := by
  constructor
  · rintro ⟨bl, hbl, b, hb, hoob⟩
    obtain ⟨p, hp, hpe⟩ := mem_enum_snd boxes bl hbl
    have hex : ∃ p2 ∈ boxes.enum, ∃ b2 ∈ p2.2, ¬ boxInBounds H W b2 :=
      ⟨p, hp, b, hpe ▸ hb, hoob⟩
    constructor
    · have := roiPoolLoop_oob H W x oh ow boxes.enum hex
      cases hh : roiPoolLoop H W x oh ow boxes.enum with
      | error e => simp [_roi_pool, hh, exceptIsError]
      | ok l => rw [hh, exceptIsError] at this; cases this
    · have := roiAlignOuter_oob H W x oh ow sr boxes.enum hex false []
      cases hh : roiAlignOuter H W x oh ow sr false boxes.enum [] with
      | error e => simp [_roi_align, hh, exceptIsError]
      | ok l => rw [hh, exceptIsError] at this; cases this
  · intro h
    have hall : ∀ p ∈ boxes.enum, ∀ b ∈ p.2, boxInBounds H W b :=
      fun p hp => h p.2 (enum_snd_mem boxes p hp)
    constructor
    · have hl := roiPoolLoop_inb H W x oh ow boxes.enum hall
      cases hh : roiPoolLoop H W x oh ow boxes.enum with
      | error e =>
        have he : e ≠ boundsMsg := fun hc => hl (hh.trans (by rw [hc]))
        simp [_roi_pool, hh, he]
      | ok l =>
        cases hl2 : l.isEmpty <;>
          simp [_roi_pool, hh, hl2, stackMsg_ne_boundsMsg]
    · have hl := roiAlignOuter_inb H W x oh ow sr boxes.enum hall false []
      cases hh : roiAlignOuter H W x oh ow sr false boxes.enum [] with
      | error e =>
        have he : e ≠ boundsMsg := fun hc => hl (hh.trans (by rw [hc]))
        simp [_roi_align, hh, he]
      | ok l =>
        cases hl2 : l.isEmpty <;>
          simp [_roi_align, hh, hl2, stackMsg_ne_boundsMsg]

/-- Witness for C7 at concrete inputs: a 2×2 image; a list with a second
box whose `top = -1` makes both kernels fail, and a single in-bounds box
list triggers no bounds failure in either kernel. -/
theorem roi_out_of_bounds_box_policy_witness :
    (exceptIsError (_roi_pool 2 2 (fun _ _ _ _ => 0)
        [[⟨0, 0, 1, 1⟩, ⟨0, -1, 1, 1⟩]] 1 1) = true ∧
      exceptIsError (_roi_align 2 2 (fun _ _ _ _ => 0)
        [[⟨0, 0, 1, 1⟩, ⟨0, -1, 1, 1⟩]] 1 1 (-1)) = true) ∧
    (_roi_pool 2 2 (fun _ _ _ _ => 0) [[⟨0, 0, 1, 1⟩]] 1 1 ≠
        .error boundsMsg ∧
      _roi_align 2 2 (fun _ _ _ _ => 0) [[⟨0, 0, 1, 1⟩]] 1 1 (-1) ≠
        .error boundsMsg) :=
  ⟨(roi_out_of_bounds_box_policy 2 2 _ _ 1 1 (-1)).1
      ⟨_, List.mem_cons_self _ _,
       ⟨0, -1, 1, 1⟩, List.mem_cons_of_mem _ (List.mem_cons_self _ _),
       by norm_num [boxInBounds]⟩,
   (roi_out_of_bounds_box_policy 2 2 _ _ 1 1 (-1)).2
      (by
        rintro bl hbl b hb
        rcases List.mem_cons.1 hbl with rfl | hbl2
        · rcases List.mem_cons.1 hb with rfl | hb2
          · norm_num [boxInBounds]
          · cases hb2
        · cases hbl2)⟩

/-- C8: with the 3×-stacked weights in `(reset, update, new-candidate)`
order (gate `g` at rows `[g·ch, (g+1)·ch)`, so `wRows = 3·ch`), the GRU
cell returns
`h1 = (1 - z) ⊙ n + z ⊙ h0` where `r`/`z` are the sigmoids of their gate
pre-activations and the candidate is `n = tanh(x_part + r ⊙ h_part)` —
the reset gate multiplying only the hidden-to-hidden contribution
`h0 @ Whn.t() + bhn`, never the input contribution. -/
theorem gru_cell_update_rule :
    ∀ (sigmoidF tanhF : ℚ → ℚ) (n cin ch : ℕ) (x0 h0 : Mat)
      (wih whh : Mat) (bih bhh : Vec) (r j : ℕ),
      exGetM (_gru_cell sigmoidF tanhF n cin (3 * ch) x0 (some h0) n
        wih whh bih bhh (some true)) r j =
      some ((1 - sigmoidF (dotN cin (x0 r) (fun k => wih (ch + j) k) + bih (ch + j) +
              (dotN ch (h0 r) (fun k => whh (ch + j) k) + bhh (ch + j)))) *
            tanhF (dotN cin (x0 r) (fun k => wih (2 * ch + j) k) + bih (2 * ch + j) +
              sigmoidF (dotN cin (x0 r) (fun k => wih j k) + bih j +
                  (dotN ch (h0 r) (fun k => whh j k) + bhh j)) *
                (dotN ch (h0 r) (fun k => whh (2 * ch + j) k) + bhh (2 * ch + j))) +
            sigmoidF (dotN cin (x0 r) (fun k => wih (ch + j) k) + bih (ch + j) +
              (dotN ch (h0 r) (fun k => whh (ch + j) k) + bhh (ch + j))) *
              h0 r j) := by
  intro sigmoidF tanhF n cin ch x0 h0 wih whh bih bhh r j
  have hch : 3 * ch / 3 = ch := Nat.mul_div_cancel_left ch (by norm_num)
  simp [_gru_cell, hch, gruXPart, gruHPart, exGetM]

/-- C9: an LSTM cell whose four stacked weight/bias arrays are all zero,
with `h0 = c0 = 0`, returns `h1 = 0` and `c1 = 0` for every input `x0`
(all gate pre-activations are zero; `i = f = o = sigmoid(0) = 1/2`,
`g = tanh(0) = 0`, so `c1 = (1/2)·0 + (1/2)·0 = 0` and
`h1 = (1/2)·tanh(0) = 0`). -/
theorem lstm_cell_zero_weights (sigmoidF tanhF : ℚ → ℚ)
    (hs : sigmoidF 0 = 1 / 2) (ht : tanhF 0 = 0) (n cin ch : ℕ) (x0 : Mat)
    (r j : ℕ) :
    exGetM2 (_lstm_cell sigmoidF tanhF n cin (4 * ch) x0
      (some (fun _ _ => 0)) (some (fun _ _ => 0)) n n
      (fun _ _ => 0) (fun _ _ => 0) (fun _ => 0) (fun _ => 0)
      (some true)) r j = some (0, 0) := by
  simp [_lstm_cell, gatePre, exGetM2, dotN_zero_right, hs, ht]

/-- Witness for C9 at a concrete input (`sigmoid`/`tanh` instantiated by
functions with the required values at 0). -/
theorem lstm_cell_zero_weights_witness :
    ((fun _ : ℚ => (1 / 2 : ℚ)) 0 = 1 / 2) ∧ ((fun _ : ℚ => (0 : ℚ)) 0 = 0) ∧
    exGetM2 (_lstm_cell (fun _ => 1 / 2) (fun _ => 0) 1 1 (4 * 1)
      (fun _ _ => 3) (some (fun _ _ => 0)) (some (fun _ _ => 0)) 1 1
      (fun _ _ => 0) (fun _ _ => 0) (fun _ => 0) (fun _ => 0)
      (some true)) 0 0 = some (0, 0) :=
  ⟨rfl, rfl,
   lstm_cell_zero_weights (fun _ => 1 / 2) (fun _ => 0) rfl rfl 1 1 1
     (fun _ _ => 3) 0 0⟩

/-- C10: the boolean `bias` flag has no influence on any of the three
recurrent cell kernels: every bias-addition site is guarded by
`bias is not None`, which holds for `True` and `False` alike, so with the
4-element weight list the stored biases are added in both cases and the
outputs coincide. -/
theorem cells_bias_flag_no_influence :
    ∀ (sigmoidF tanhF : ℚ → ℚ) (n cin ch wR : ℕ) (x0 : Mat)
      (h0opt c0opt : Option Mat) (nh nc : ℕ) (wih whh : Mat) (bih bhh : Vec),
      _rnn_cell tanhF n cin ch x0 h0opt nh wih whh bih bhh (some true) =
        _rnn_cell tanhF n cin ch x0 h0opt nh wih whh bih bhh (some false) ∧
      _lstm_cell sigmoidF tanhF n cin wR x0 h0opt c0opt nh nc wih whh bih bhh
          (some true) =
        _lstm_cell sigmoidF tanhF n cin wR x0 h0opt c0opt nh nc wih whh bih bhh
          (some false) ∧
      _gru_cell sigmoidF tanhF n cin wR x0 h0opt nh wih whh bih bhh (some true) =
        _gru_cell sigmoidF tanhF n cin wR x0 h0opt nh wih whh bih bhh (some false) :=
  fun _ _ _ _ _ _ _ _ _ _ _ _ _ _ _ => ⟨rfl, rfl, rfl⟩
